import Mathlib

/-!
Verification of the `queries-resources` crate (`src/lib.rs`) of
bkiefer/snips-nlu-rs: resource parsers building stem maps, word-cluster
maps and gazetteer sets.

Shallow embedding conventions:
* The external `csv` reader is modelled at the decoded-record level: a
  delimited byte stream is a `CsvStream`, a list whose items are either a
  stream-level failure (I/O or low-level CSV error, `Except.error`) or one
  raw record, the list of its column strings.  Decoding a record into the
  Rust target type `(String, String)` succeeds exactly when the record has
  two columns, as the `csv` crate's `decode` does.
* A line-oriented byte stream (`BufReader::lines()`) is a `LineStream`:
  each item is either an I/O failure or one line with its terminator
  stripped.
* `std::collections::HashMap` is modelled as an association list with
  unique keys (`StemMap`); `insertMap` replaces any existing binding for
  the key, as `HashMap::insert` does, and `findMap` is `HashMap::get`.
  `HashSet<String>` is modelled as a duplicate-free list (`GazSet`);
  `insertSet` is `HashSet::insert`.
* The external collaborators `nlu_utils::string::normalize` and
  `nlu_utils::token::tokenize_light` are parameters of every definition
  that consumes them, as are the embedded resource byte streams
  (`include_bytes!`), which are not part of this crate.
-/

/-- The crate's unified `error_chain!` error type: its foreign links are
the underlying I/O error and the `csv` crate's error. -/
inductive Error where
  | ioError (msg : String)
  | csvError (msg : String)
deriving DecidableEq, Repr

/-- Decidable equality for `Except`, so concrete parser runs can be
checked by `decide`. -/
def exceptDecEq {ε α : Type} [DecidableEq ε] [DecidableEq α] :
    DecidableEq (Except ε α) := fun x y =>
  match x, y with
  | Except.ok a, Except.ok b =>
    if h : a = b then isTrue (by rw [h])
    else isFalse (fun hc => h (Except.ok.inj hc))
  | Except.ok _, Except.error _ => isFalse (fun hc => Except.noConfusion hc)
  | Except.error _, Except.ok _ => isFalse (fun hc => Except.noConfusion hc)
  | Except.error e, Except.error f =>
    if h : e = f then isTrue (by rw [h])
    else isFalse (fun hc => h (Except.error.inj hc))

instance {ε α : Type} [DecidableEq ε] [DecidableEq α] :
    DecidableEq (Except ε α) :=
  exceptDecEq

/-- Rust `str::split` with a one-character separator, at the character
level: splitting yields one (possibly empty) fragment per separator gap,
so the empty input yields one empty fragment, as `"".split(',')` does. -/
def splitChar (sep : Char) : List Char → List (List Char)
  | [] => [[]]
  | c :: cs =>
    match splitChar sep cs with
    | [] => [[]]
    | g :: gs => if c = sep then [] :: g :: gs else (c :: g) :: gs

/-- Rust `str::split` with a one-character separator, on strings. -/
def splitStr (sep : Char) (s : String) : List String :=
  (splitChar sep s.data).map String.mk

/-- itertools `.join(sep)`: concatenate the items with `sep` between
consecutive items; the empty sequence joins to the empty string. -/
def joinSep (sep : String) : List String → String
  | [] => ""
  | [x] => x
  | x :: y :: xs => x ++ sep ++ joinSep sep (y :: xs)

/-- A `HashMap<String, String>` (stem maps and cluster maps), modelled as
an association list with unique keys. -/
abbrev StemMap := List (String × String)

/-- A delimited-record stream as produced by the `csv` reader: each item
is a stream failure or one raw record (its column strings). -/
abbrev CsvStream := List (Except Error (List String))

/-- A line stream as produced by `BufReader::lines()`. -/
abbrev LineStream := List (Except Error String)

/-- A `HashSet<String>`, modelled as a duplicate-free list. -/
abbrev GazSet := List String

/-- Drop every binding whose key is `k`. -/
def removeKey : StemMap → String → StemMap
  | [], _ => []
  | p :: t, k => if p.1 = k then removeKey t k else p :: removeKey t k

/-- `HashMap::insert`: bind `k` to `v`, replacing any existing binding. -/
def insertMap (m : StemMap) (k v : String) : StemMap :=
  (k, v) :: removeKey m k

/-- `HashMap::get`: the value bound to `k`, if any. -/
def findMap : StemMap → String → Option String
  | [], _ => none
  | p :: t, k => if p.1 = k then some p.2 else findMap t k

/-- `HashMap::extend`: insert every binding of `m2` into `m1` (so `m2`
wins on key collisions). -/
def extendMap (m1 m2 : StemMap) : StemMap :=
  m2.foldl (fun m p => insertMap m p.1 p.2) m1

/-- `HashSet::insert`. -/
def insertSet (s : GazSet) (x : String) : GazSet :=
  if x ∈ s then s else s ++ [x]

/-- Error message used when a record does not decode into the two-column
target type. -/
def badShapeMsg : String := "record does not decode into exactly two string columns"

/-- The `csv` crate's `decode` into `(String, String)`: succeeds exactly
on a two-column record. -/
def decodeRow2 : List String → Except Error (String × String)
  | [a, b] => Except.ok (a, b)
  | _ => Except.error (Error.csvError badShapeMsg)

namespace stems

/-- `stems::no_stem`. -/
def no_stem (input : String) : String :=
  input

/-- Loop body of `stems::parse_lexemes`: for each decoded record
`(value, keys)` the value is normalized once and every comma-separated
key is inserted as `normalize(key) -> normalized_value`.  `row?`
propagates stream failures; decoding fails on a record that is not two
columns. -/
def parse_lexemes_from (normalize : String → String) :
    CsvStream → StemMap → Except Error StemMap
  | [], result => Except.ok result
  | Except.error e :: _, _ => Except.error e
  | Except.ok r :: rest, result =>
    match decodeRow2 r with
    | Except.error e => Except.error e
    | Except.ok (value, keys) =>
      let normalized_value := normalize value
      parse_lexemes_from normalize rest
        ((splitStr ',' keys).foldl
          (fun m key => insertMap m (normalize key) normalized_value) result)

/-- `stems::parse_lexemes` (delimiter `;`, no headers). -/
def parse_lexemes (normalize : String → String) (rows : CsvStream) :
    Except Error StemMap :=
  parse_lexemes_from normalize rows []

/-- Loop body of `stems::parse_inflections`: each decoded record
`(key, value)` is inserted as `normalize(key) -> normalize(value)`. -/
def parse_inflections_from (normalize : String → String) :
    CsvStream → StemMap → Except Error StemMap
  | [], result => Except.ok result
  | Except.error e :: _, _ => Except.error e
  | Except.ok r :: rest, result =>
    match decodeRow2 r with
    | Except.error e => Except.error e
    | Except.ok (key, value) =>
      parse_inflections_from normalize rest
        (insertMap result (normalize key) (normalize value))

/-- `stems::parse_inflections` (delimiter `;`, no headers). -/
def parse_inflections (normalize : String → String) (rows : CsvStream) :
    Except Error StemMap :=
  parse_inflections_from normalize rows []

/-- `stems::en`: parse the English inflection table, then extend the
result with the parsed English lexeme table.  The two embedded resource
byte streams are parameters. -/
def en (normalize : String → String) (inflections lexemes : CsvStream) :
    Except Error StemMap :=
  match parse_inflections normalize inflections with
  | Except.error e => Except.error e
  | Except.ok result =>
    match parse_lexemes normalize lexemes with
    | Except.error e => Except.error e
    | Except.ok lex => Except.ok (extendMap result lex)

/-- `stems::fr`: same build as `stems::en` over the French resources. -/
def fr (normalize : String → String) (inflections lexemes : CsvStream) :
    Except Error StemMap :=
  match parse_inflections normalize inflections with
  | Except.error e => Except.error e
  | Except.ok result =>
    match parse_lexemes normalize lexemes with
    | Except.error e => Except.error e
    | Except.ok lex => Except.ok (extendMap result lex)

/-- `stems::es`: same build as `stems::en` over the Spanish resources. -/
def es (normalize : String → String) (inflections lexemes : CsvStream) :
    Except Error StemMap :=
  match parse_inflections normalize inflections with
  | Except.error e => Except.error e
  | Except.ok result =>
    match parse_lexemes normalize lexemes with
    | Except.error e => Except.error e
    | Except.ok lex => Except.ok (extendMap result lex)

/-- `stems::de`: German has only a lexeme table. -/
def de (normalize : String → String) (lexemes : CsvStream) :
    Except Error StemMap :=
  match parse_lexemes normalize lexemes with
  | Except.error e => Except.error e
  | Except.ok result => Except.ok result

end stems

namespace word_clusters

/-- Loop body of `word_clusters::parse_clusters`: each decoded record
`(key, value)` is inserted verbatim, with no normalization. -/
def parse_clusters_from :
    CsvStream → StemMap → Except Error StemMap
  | [], result => Except.ok result
  | Except.error e :: _, _ => Except.error e
  | Except.ok r :: rest, result =>
    match decodeRow2 r with
    | Except.error e => Except.error e
    | Except.ok (key, value) =>
      parse_clusters_from rest (insertMap result key value)

/-- `word_clusters::parse_clusters` (delimiter tab, no headers). -/
def parse_clusters (rows : CsvStream) : Except Error StemMap :=
  parse_clusters_from rows []

/-- `word_clusters::en::brown_clusters`: parse the embedded English Brown
cluster stream (a parameter here). -/
def brown_clusters (rows : CsvStream) : Except Error StemMap :=
  parse_clusters rows

end word_clusters

namespace gazetteer

/-- Loop body of `gazetteer::parse_gazetteer`: each line (after `line?`
propagates I/O failures) is normalized; an empty normalization is
skipped; otherwise the normalization is tokenized, each token mapped
through `stem_fn`, and the tokens joined with `" "` form one entry
inserted into the set. -/
def parse_gazetteer_from (normalize : String → String)
    (tokenize_light : String → List String) (stem_fn : String → String) :
    LineStream → GazSet → Except Error GazSet
  | [], result => Except.ok result
  | Except.error e :: _, _ => Except.error e
  | Except.ok line :: rest, result =>
    let normalized := normalize line
    if normalized.isEmpty then
      parse_gazetteer_from normalize tokenize_light stem_fn rest result
    else
      parse_gazetteer_from normalize tokenize_light stem_fn rest
        (insertSet result
          (joinSep " " ((tokenize_light normalized).map stem_fn)))

/-- `gazetteer::parse_gazetteer`. -/
def parse_gazetteer (normalize : String → String)
    (tokenize_light : String → List String) (stem_fn : String → String)
    (lines : LineStream) : Except Error GazSet :=
  parse_gazetteer_from normalize tokenize_light stem_fn lines []

/-- `gazetteer::en::stem_en` after its `lazy_static` map has been built
successfully: `STEMS_EN.get(&input).unwrap_or(&input)`.  `m` is the
successfully built `stems::en` map. -/
def stem_en (m : StemMap) (input : String) : String :=
  match findMap m input with
  | some v => v
  | none => input

/-- `gazetteer::fr::stem_fr` over the built `stems::fr` map. -/
def stem_fr (m : StemMap) (input : String) : String :=
  match findMap m input with
  | some v => v
  | none => input

/-- `gazetteer::de::stem_de` over the built `stems::de` map. -/
def stem_de (m : StemMap) (input : String) : String :=
  match findMap m input with
  | some v => v
  | none => input

end gazetteer

/-- Reference function following the spec's words for the lexeme table
(section 4.2): each record is (base-form, comma-joined list of inflected
forms); the base form is normalized, and for every comma-separated key
the key is normalized and inserted as key -> normalized-base.  Used only
to compare `stems.parse_lexemes` against the spec's description. -/
def parse_lexemes_spec (normalize : String → String)
    (records : List (String × String)) : StemMap :=
  records.foldl
    (fun m r =>
      (splitStr ',' r.2).foldl
        (fun m key => insertMap m (normalize key) (normalize r.1)) m)
    []

/-- Result of calling a stemmed gazetteer accessor, whose stemming
function dereferences a `lazy_static` map built with `.unwrap()`: the
call can return `Ok`, return `Err`, or panic (the `unwrap` on a failed
`stems::<lang>()` build). -/
inductive Outcome where
  | built (s : GazSet)
  | failed (e : Error)
  | panicked
deriving DecidableEq, Repr

/-- Whether an `Outcome` is the `Err` return path. -/
def Outcome.isFailure : Outcome → Bool
  | Outcome.failed _ => true
  | _ => false

/-- The loop of a stemmed gazetteer accessor
(`create_gazetteer!(name_stem, name, stem_en)`), with the `lazy_static`
semantics of `stem_en` made explicit: `stems_result` is the outcome of
the underlying `stems::<lang>()` build; the first time a token is
actually passed to the stemming function, a failed build panics
(`STEMS_EN` is `stems::en().unwrap()`), it does not return `Err`.
Stream-level line failures still return `Err` as in
`gazetteer::parse_gazetteer`. -/
def run_stemmed_gazetteer (normalize : String → String)
    (tokenize_light : String → List String)
    (stems_result : Except Error StemMap) :
    LineStream → GazSet → Outcome
  | [], result => Outcome.built result
  | Except.error e :: _, _ => Outcome.failed e
  | Except.ok line :: rest, result =>
    let normalized := normalize line
    if normalized.isEmpty then
      run_stemmed_gazetteer normalize tokenize_light stems_result rest result
    else
      match tokenize_light normalized with
      | [] =>
        run_stemmed_gazetteer normalize tokenize_light stems_result rest
          (insertSet result "")
      | tok :: toks =>
        match stems_result with
        | Except.error _ => Outcome.panicked
        | Except.ok m =>
          run_stemmed_gazetteer normalize tokenize_light stems_result rest
            (insertSet result
              (joinSep " " ((tok :: toks).map (gazetteer.stem_en m))))

/-- A stemmed gazetteer accessor: run the gazetteer loop with the
language's `stems` build outcome feeding the `lazy_static` stemmer. -/
def stemmed_gazetteer_accessor (normalize : String → String)
    (tokenize_light : String → List String)
    (stems_result : Except Error StemMap) (lines : LineStream) : Outcome :=
  run_stemmed_gazetteer normalize tokenize_light stems_result lines []

/-- State of the instrumented process model for the caching claim: the
`lazy_static` slot of a language's stem map (`STEMS_EN` and friends) and
a count of how many embedded resource streams have been parsed so far in
the process. -/
structure StemCacheState where
  cache : Option StemMap
  parses : Nat
deriving DecidableEq, Repr

/-- Instrumented call of the top-level accessor `stems::en()`: its body
unconditionally re-parses the inflection stream and (if that succeeds)
the lexeme stream on every call; no cache is consulted or filled. -/
def call_stems_en_counting (normalize : String → String)
    (inflections lexemes : CsvStream) (parses : Nat) :
    Nat × Except Error StemMap :=
  match stems.parse_inflections normalize inflections with
  | Except.error e => (parses + 1, Except.error e)
  | Except.ok m1 =>
    match stems.parse_lexemes normalize lexemes with
    | Except.error e => (parses + 2, Except.error e)
    | Except.ok m2 => (parses + 2, Except.ok (extendMap m1 m2))

/-- Instrumented call of the stemming wrapper `gazetteer::en::stem_en`:
the `lazy_static` `STEMS_EN` slot is built (parsing the resource
streams) only when empty; a filled slot is reused without parsing.  A
failed build is the `unwrap` panic, reported as `none`. -/
def call_stem_en_cached (normalize : String → String)
    (inflections lexemes : CsvStream) (st : StemCacheState)
    (input : String) : StemCacheState × Option String :=
  match st.cache with
  | some m => (st, some (gazetteer.stem_en m input))
  | none =>
    match call_stems_en_counting normalize inflections lexemes st.parses with
    | (p, Except.error _) => (⟨none, p⟩, none)
    | (p, Except.ok m) => (⟨some m, p⟩, some (gazetteer.stem_en m input))

/-- Toy instantiation of the external normalizer assumed by the spec's
concrete scenarios: lower-casing. -/
def toyNormalize (s : String) : String :=
  String.mk (s.data.map Char.toLower)

/-- Toy instantiation of the external light tokenizer assumed by the
spec's concrete scenarios: split on spaces, dropping empty fragments. -/
def toyTokenize (s : String) : List String :=
  (splitStr ' ' s).filter (fun t => !t.isEmpty)

/-! ### Association-list map lemmas -/

theorem findMap_removeKey (m : StemMap) (k q : String) (h : q ≠ k) :
    findMap (removeKey m k) q = findMap m q := by
  have hk : k ≠ q := fun hc => h hc.symm
  induction m with
  | nil => rfl
  | cons p t ih =>
    by_cases hp : p.1 = k
    · have hq : p.1 ≠ q := fun hc => hk (hp ▸ hc)
      simp [removeKey, findMap, hp, hq, hk, ih]
    · by_cases hpq : p.1 = q
      · simp [removeKey, findMap, hp, hpq, h]
      · simp [removeKey, findMap, hp, hpq, h, ih]

theorem findMap_insertMap (m : StemMap) (k v q : String) :
    findMap (insertMap m k v) q = if q = k then some v else findMap m q := by
  by_cases h : q = k
  · simp [findMap, insertMap, h]
  · have hk : k ≠ q := fun hc => h hc.symm
    simp [findMap, insertMap, hk, h, findMap_removeKey m k q h]

theorem findMap_eq_none (m : StemMap) (q : String)
    (h : q ∉ m.map Prod.fst) : findMap m q = none := by
  induction m with
  | nil => rfl
  | cons p t ih =>
    simp at h
    have hp : p.1 ≠ q := fun hc => h.1 hc.symm
    simp [findMap, hp]
    exact ih (by simp; exact h.2)

theorem mem_removeKey (m : StemMap) (k : String) (x : String × String)
    (h : x ∈ removeKey m k) : x ∈ m := by
  induction m with
  | nil => exact absurd h (List.not_mem_nil x)
  | cons p t ih =>
    by_cases hp : p.1 = k
    · simp [removeKey, hp] at h
      exact List.mem_cons_of_mem p (ih h)
    · simp [removeKey, hp] at h
      cases h with
      | inl he => exact he ▸ List.mem_cons_self p t
      | inr ht => exact List.mem_cons_of_mem p (ih ht)

theorem not_mem_keys_removeKey (m : StemMap) (k : String) :
    k ∉ (removeKey m k).map Prod.fst := by
  induction m with
  | nil => simp [removeKey]
  | cons p t ih =>
    by_cases hp : p.1 = k
    · simpa [removeKey, hp] using ih
    · simp [removeKey, hp]
      constructor
      · exact fun hc => hp hc.symm
      · simpa using ih

theorem keys_nodup_removeKey (m : StemMap) (k : String)
    (h : (m.map Prod.fst).Nodup) :
    ((removeKey m k).map Prod.fst).Nodup := by
  induction m with
  | nil => simp [removeKey]
  | cons p t ih =>
    simp at h
    by_cases hp : p.1 = k
    · simp [removeKey, hp]
      exact ih h.2
    · simp [removeKey, hp]
      constructor
      · intro a hab
        exact h.1 a (mem_removeKey t k (p.1, a) hab)
      · exact ih h.2

theorem keys_nodup_insertMap (m : StemMap) (k v : String)
    (h : (m.map Prod.fst).Nodup) :
    ((insertMap m k v).map Prod.fst).Nodup := by
  simp [insertMap]
  constructor
  · intro a hab
    have hmem : k ∈ (removeKey m k).map Prod.fst := by
      exact List.mem_map_of_mem Prod.fst hab
    exact not_mem_keys_removeKey m k hmem
  · exact keys_nodup_removeKey m k h

theorem keys_nodup_foldl_insert_keys (l : List String) (f : String → String)
    (v : String) :
    ∀ m : StemMap, (m.map Prod.fst).Nodup →
    ((l.foldl (fun m key => insertMap m (f key) v) m).map Prod.fst).Nodup := by
  induction l with
  | nil => intro m h; exact h
  | cons k t ih =>
    intro m h
    exact ih (insertMap m (f k) v) (keys_nodup_insertMap m (f k) v h)

theorem keys_nodup_foldl_insert (l : List (String × String)) :
    ∀ m : StemMap, (m.map Prod.fst).Nodup →
    ((l.foldl (fun m p => insertMap m p.1 p.2) m).map Prod.fst).Nodup := by
  induction l with
  | nil => intro m h; exact h
  | cons p t ih =>
    intro m h
    exact ih (insertMap m p.1 p.2) (keys_nodup_insertMap m p.1 p.2 h)

theorem find_extendMap (m2 : StemMap) :
    ∀ m1 : StemMap, (m2.map Prod.fst).Nodup → ∀ q,
    findMap (extendMap m1 m2) q =
      match findMap m2 q with
      | some v => some v
      | none => findMap m1 q := by
  induction m2 with
  | nil => intro m1 _ q; rfl
  | cons p t ih =>
    intro m1 h q
    simp at h
    have step : extendMap m1 (p :: t) = extendMap (insertMap m1 p.1 p.2) t := rfl
    rw [step, ih (insertMap m1 p.1 p.2) h.2 q]
    by_cases hq : q = p.1
    · subst hq
      have ht : findMap t p.1 = none := by
        apply findMap_eq_none
        simp
        exact h.1
      have hhead : findMap (p :: t) p.1 = some p.2 := by
        simp [findMap]
      simp [ht, hhead, findMap_insertMap]
    · have hhead : findMap (p :: t) q = findMap t q := by
        have : p.1 ≠ q := fun hc => hq hc.symm
        simp [findMap, this]
      cases hft : findMap t q with
      | some v => simp [hhead, hft]
      | none => simp [hhead, hft, findMap_insertMap, hq]

/-! ### Set and gazetteer lemmas -/

theorem mem_insertSet (s : GazSet) (e x : String) :
    x ∈ insertSet s e ↔ x ∈ s ∨ x = e := by
  by_cases h : e ∈ s
  · simp [insertSet, h]
    intro hx
    exact hx ▸ h
  · simp [insertSet, h]

theorem parse_gazetteer_from_mem (normalize : String → String)
    (tokenize_light : String → List String) (stem_fn : String → String) :
    ∀ (lines : LineStream) (acc s : GazSet),
    gazetteer.parse_gazetteer_from normalize tokenize_light stem_fn lines acc
      = Except.ok s →
    ∀ x, (x ∈ s ↔ x ∈ acc ∨ ∃ line, Except.ok line ∈ lines ∧
      (normalize line).isEmpty = false ∧
      x = joinSep " " ((tokenize_light (normalize line)).map stem_fn)) := by
  intro lines
  induction lines with
  | nil =>
    intro acc s h x
    simp [gazetteer.parse_gazetteer_from] at h
    subst h
    simp
  | cons l rest ih =>
    intro acc s h x
    cases l with
    | error e => simp [gazetteer.parse_gazetteer_from] at h
    | ok line =>
      by_cases hemp : (normalize line).isEmpty
      · rw [gazetteer.parse_gazetteer_from] at h
        simp only [hemp, if_true] at h
        rw [ih acc s h x]
        constructor
        · rintro (hx | ⟨l2, hl2, hP⟩)
          · exact Or.inl hx
          · exact Or.inr ⟨l2, List.mem_cons_of_mem _ hl2, hP⟩
        · rintro (hx | ⟨l2, hl2, hP⟩)
          · exact Or.inl hx
          · rcases List.mem_cons.mp hl2 with heq | hmem
            · have hl : l2 = line := Except.ok.inj heq
              subst hl
              rw [hP.1] at hemp
              cases hemp
            · exact Or.inr ⟨l2, hmem, hP⟩
      · have hf : (normalize line).isEmpty = false := by
          cases hb : (normalize line).isEmpty with
          | false => rfl
          | true => exact absurd hb hemp
        rw [gazetteer.parse_gazetteer_from] at h
        simp only [hf, Bool.false_eq_true, if_false] at h
        rw [ih _ s h x]
        constructor
        · rintro (hacc | ⟨l2, hl2, hP⟩)
          · rcases (mem_insertSet acc _ x).mp hacc with hx | rfl
            · exact Or.inl hx
            · exact Or.inr ⟨line, List.mem_cons_self _ _, hf, rfl⟩
          · exact Or.inr ⟨l2, List.mem_cons_of_mem _ hl2, hP⟩
        · rintro (hx | ⟨l2, hl2, hP⟩)
          · exact Or.inl ((mem_insertSet acc _ x).mpr (Or.inl hx))
          · rcases List.mem_cons.mp hl2 with heq | hmem
            · have hl : l2 = line := Except.ok.inj heq
              subst hl
              exact Or.inl ((mem_insertSet acc _ x).mpr (Or.inr hP.2))
            · exact Or.inr ⟨l2, hmem, hP⟩

theorem parse_gazetteer_mem (normalize : String → String)
    (tokenize_light : String → List String) (stem_fn : String → String)
    (lines : LineStream) (s : GazSet)
    (h : gazetteer.parse_gazetteer normalize tokenize_light stem_fn lines
      = Except.ok s) :
    ∀ x, x ∈ s ↔ ∃ line, Except.ok line ∈ lines ∧
      (normalize line).isEmpty = false ∧
      x = joinSep " " ((tokenize_light (normalize line)).map stem_fn) := by
  intro x
  rw [parse_gazetteer_from_mem normalize tokenize_light stem_fn lines [] s h x]
  simp

/-! ### Record-shape lemmas for the delimited parsers -/

theorem decodeRow2_two (a b : String) :
    decodeRow2 [a, b] = Except.ok (a, b) := rfl

theorem decodeRow2_not_two (row : List String) (h : row.length ≠ 2) :
    decodeRow2 row = Except.error (Error.csvError badShapeMsg) :=
  match row with
  | [] => rfl
  | [_] => rfl
  | [_, _] => absurd rfl h
  | _ :: _ :: _ :: _ => rfl

theorem parse_inflections_from_ok (normalize : String → String) :
    ∀ (rows : CsvStream) (acc : StemMap),
    (∀ r ∈ rows, ∃ a b, r = Except.ok [a, b]) →
    ∃ m, stems.parse_inflections_from normalize rows acc = Except.ok m := by
  intro rows
  induction rows with
  | nil => intro acc _; exact ⟨acc, rfl⟩
  | cons r rest ih =>
    intro acc hall
    obtain ⟨a, b, rfl⟩ := hall r (List.mem_cons_self _ _)
    rw [stems.parse_inflections_from, decodeRow2_two]
    exact ih _ (fun r hr => hall r (List.mem_cons_of_mem _ hr))

theorem parse_lexemes_from_ok (normalize : String → String) :
    ∀ (rows : CsvStream) (acc : StemMap),
    (∀ r ∈ rows, ∃ a b, r = Except.ok [a, b]) →
    ∃ m, stems.parse_lexemes_from normalize rows acc = Except.ok m := by
  intro rows
  induction rows with
  | nil => intro acc _; exact ⟨acc, rfl⟩
  | cons r rest ih =>
    intro acc hall
    obtain ⟨a, b, rfl⟩ := hall r (List.mem_cons_self _ _)
    rw [stems.parse_lexemes_from, decodeRow2_two]
    exact ih _ (fun r hr => hall r (List.mem_cons_of_mem _ hr))

theorem parse_clusters_from_ok :
    ∀ (rows : CsvStream) (acc : StemMap),
    (∀ r ∈ rows, ∃ a b, r = Except.ok [a, b]) →
    ∃ m, word_clusters.parse_clusters_from rows acc = Except.ok m := by
  intro rows
  induction rows with
  | nil => intro acc _; exact ⟨acc, rfl⟩
  | cons r rest ih =>
    intro acc hall
    obtain ⟨a, b, rfl⟩ := hall r (List.mem_cons_self _ _)
    rw [word_clusters.parse_clusters_from, decodeRow2_two]
    exact ih _ (fun r hr => hall r (List.mem_cons_of_mem _ hr))

theorem length_two_shape (row : List String) (h : row.length = 2) :
    ∃ a b, row = [a, b] := by
  match row, h with
  | [a, b], _ => exact ⟨a, b, rfl⟩

theorem bad_row_in_rest (a b : String) (rest : CsvStream)
    (hbad : ∃ row, Except.ok row ∈ (Except.ok [a, b] :: rest : CsvStream) ∧
      row.length ≠ 2) :
    ∃ row, Except.ok row ∈ rest ∧ row.length ≠ 2 := by
  obtain ⟨row, hmem, hlen⟩ := hbad
  rcases List.mem_cons.mp hmem with heq | hmem2
  · have : row = [a, b] := Except.ok.inj heq
    rw [this] at hlen
    exact absurd rfl hlen
  · exact ⟨row, hmem2, hlen⟩

theorem parse_inflections_from_bad (normalize : String → String) :
    ∀ (rows : CsvStream) (acc : StemMap),
    (∀ r ∈ rows, ∃ row, r = Except.ok row) →
    (∃ row, Except.ok row ∈ rows ∧ row.length ≠ 2) →
    stems.parse_inflections_from normalize rows acc =
      Except.error (Error.csvError badShapeMsg) := by
  intro rows
  induction rows with
  | nil =>
    intro acc _ hbad
    obtain ⟨row, hmem, _⟩ := hbad
    exact absurd hmem (List.not_mem_nil _)
  | cons r rest ih =>
    intro acc hall hbad
    obtain ⟨row, rfl⟩ := hall r (List.mem_cons_self _ _)
    by_cases hlen : row.length = 2
    · obtain ⟨a, b, rfl⟩ := length_two_shape row hlen
      rw [stems.parse_inflections_from, decodeRow2_two]
      exact ih _ (fun r hr => hall r (List.mem_cons_of_mem _ hr))
        (bad_row_in_rest a b rest hbad)
    · rw [stems.parse_inflections_from, decodeRow2_not_two row hlen]

theorem parse_lexemes_from_bad (normalize : String → String) :
    ∀ (rows : CsvStream) (acc : StemMap),
    (∀ r ∈ rows, ∃ row, r = Except.ok row) →
    (∃ row, Except.ok row ∈ rows ∧ row.length ≠ 2) →
    stems.parse_lexemes_from normalize rows acc =
      Except.error (Error.csvError badShapeMsg) := by
  intro rows
  induction rows with
  | nil =>
    intro acc _ hbad
    obtain ⟨row, hmem, _⟩ := hbad
    exact absurd hmem (List.not_mem_nil _)
  | cons r rest ih =>
    intro acc hall hbad
    obtain ⟨row, rfl⟩ := hall r (List.mem_cons_self _ _)
    by_cases hlen : row.length = 2
    · obtain ⟨a, b, rfl⟩ := length_two_shape row hlen
      rw [stems.parse_lexemes_from, decodeRow2_two]
      exact ih _ (fun r hr => hall r (List.mem_cons_of_mem _ hr))
        (bad_row_in_rest a b rest hbad)
    · rw [stems.parse_lexemes_from, decodeRow2_not_two row hlen]

theorem parse_clusters_from_bad :
    ∀ (rows : CsvStream) (acc : StemMap),
    (∀ r ∈ rows, ∃ row, r = Except.ok row) →
    (∃ row, Except.ok row ∈ rows ∧ row.length ≠ 2) →
    word_clusters.parse_clusters_from rows acc =
      Except.error (Error.csvError badShapeMsg) := by
  intro rows
  induction rows with
  | nil =>
    intro acc _ hbad
    obtain ⟨row, hmem, _⟩ := hbad
    exact absurd hmem (List.not_mem_nil _)
  | cons r rest ih =>
    intro acc hall hbad
    obtain ⟨row, rfl⟩ := hall r (List.mem_cons_self _ _)
    by_cases hlen : row.length = 2
    · obtain ⟨a, b, rfl⟩ := length_two_shape row hlen
      rw [word_clusters.parse_clusters_from, decodeRow2_two]
      exact ih _ (fun r hr => hall r (List.mem_cons_of_mem _ hr))
        (bad_row_in_rest a b rest hbad)
    · rw [word_clusters.parse_clusters_from, decodeRow2_not_two row hlen]

theorem parse_lexemes_from_nodup (normalize : String → String) :
    ∀ (rows : CsvStream) (acc m : StemMap), (acc.map Prod.fst).Nodup →
    stems.parse_lexemes_from normalize rows acc = Except.ok m →
    (m.map Prod.fst).Nodup := by
  intro rows
  induction rows with
  | nil =>
    intro acc m hacc h
    simp [stems.parse_lexemes_from] at h
    exact h ▸ hacc
  | cons r rest ih =>
    intro acc m hacc h
    cases r with
    | error e => simp [stems.parse_lexemes_from] at h
    | ok row =>
      rw [stems.parse_lexemes_from] at h
      cases hd : decodeRow2 row with
      | error e => rw [hd] at h; cases h
      | ok p =>
        obtain ⟨value, keys⟩ := p
        rw [hd] at h
        exact ih _ m (keys_nodup_foldl_insert_keys _ _ _ acc hacc) h

theorem parse_inflections_from_nodup (normalize : String → String) :
    ∀ (rows : CsvStream) (acc m : StemMap), (acc.map Prod.fst).Nodup →
    stems.parse_inflections_from normalize rows acc = Except.ok m →
    (m.map Prod.fst).Nodup := by
  intro rows
  induction rows with
  | nil =>
    intro acc m hacc h
    simp [stems.parse_inflections_from] at h
    exact h ▸ hacc
  | cons r rest ih =>
    intro acc m hacc h
    cases r with
    | error e => simp [stems.parse_inflections_from] at h
    | ok row =>
      rw [stems.parse_inflections_from] at h
      cases hd : decodeRow2 row with
      | error e => rw [hd] at h; cases h
      | ok p =>
        obtain ⟨key, value⟩ := p
        rw [hd] at h
        exact ih _ m (keys_nodup_insertMap _ _ _ hacc) h

theorem mem_insertMap (m : StemMap) (k v : String) (x : String × String)
    (h : x ∈ insertMap m k v) : x = (k, v) ∨ x ∈ m := by
  rcases List.mem_cons.mp h with heq | hmem
  · exact Or.inl heq
  · exact Or.inr (mem_removeKey m k x hmem)

theorem decodeRow2_ok_shape (row : List String) (a b : String)
    (h : decodeRow2 row = Except.ok (a, b)) : row = [a, b] := by
  match row, h with
  | [x, y], h =>
    have : (x, y) = (a, b) := Except.ok.inj h
    rw [Prod.mk.injEq] at this
    rw [this.1, this.2]

theorem parse_clusters_from_entries :
    ∀ (rows : CsvStream) (acc m : StemMap),
    word_clusters.parse_clusters_from rows acc = Except.ok m →
    ∀ x, x ∈ m → x ∈ acc ∨ Except.ok [x.1, x.2] ∈ rows := by
  intro rows
  induction rows with
  | nil =>
    intro acc m h x hx
    simp [word_clusters.parse_clusters_from] at h
    exact Or.inl (h ▸ hx)
  | cons r rest ih =>
    intro acc m h x hx
    cases r with
    | error e => simp [word_clusters.parse_clusters_from] at h
    | ok row =>
      rw [word_clusters.parse_clusters_from] at h
      cases hd : decodeRow2 row with
      | error e => rw [hd] at h; cases h
      | ok p =>
        obtain ⟨key, value⟩ := p
        rw [hd] at h
        have hrow : row = [key, value] := decodeRow2_ok_shape row key value hd
        rcases ih _ m h x hx with hacc | hrest
        · rcases mem_insertMap acc key value x hacc with rfl | hold
          · exact Or.inr (by rw [hrow]; exact List.mem_cons_self _ _)
          · exact Or.inl hold
        · exact Or.inr (List.mem_cons_of_mem _ hrest)

/-! ### Claim theorems -/

/-- C1: For each of en, fr and es, the stem-map accessor returns the map
obtained by parsing the language's inflection table and then inserting
into it every entry of the parsed lexeme table, so that for every key
present in both parsed sources the final value is the lexeme table's
(later-wins). -/
theorem stems_accessor_lexeme_later_wins
    (normalize : String → String) (inflections lexemes : CsvStream)
    (m1 m2 : StemMap)
    (h1 : stems.parse_inflections normalize inflections = Except.ok m1)
    (h2 : stems.parse_lexemes normalize lexemes = Except.ok m2) :
    (stems.en normalize inflections lexemes = Except.ok (extendMap m1 m2) ∧
     stems.fr normalize inflections lexemes = Except.ok (extendMap m1 m2) ∧
     stems.es normalize inflections lexemes = Except.ok (extendMap m1 m2)) ∧
    ∀ q, findMap (extendMap m1 m2) q =
      match findMap m2 q with
      | some v => some v
      | none => findMap m1 q := by
  have hnd : (m2.map Prod.fst).Nodup :=
    parse_lexemes_from_nodup normalize lexemes [] m2 (by simp) h2
  refine ⟨⟨?_, ?_, ?_⟩, fun q => find_extendMap m2 m1 hnd q⟩
  · rw [stems.en, h1, h2]
  · rw [stems.fr, h1, h2]
  · rw [stems.es, h1, h2]

/-- Witness for C1 at a concrete input with a key collision: the
inflection table maps "ran" to "run", the lexeme table re-maps "ran" to
"go", and the built map returns "go" for "ran". -/
theorem stems_accessor_lexeme_later_wins_witness :
    stems.en toyNormalize [Except.ok ["ran", "run"]]
      [Except.ok ["go", "ran,went"]] =
      Except.ok (extendMap [("ran", "run")] [("went", "go"), ("ran", "go")]) ∧
    findMap (extendMap [("ran", "run")] [("went", "go"), ("ran", "go")])
      "ran" = some "go" := by
  have h := stems_accessor_lexeme_later_wins toyNormalize
    [Except.ok ["ran", "run"]] [Except.ok ["go", "ran,went"]]
    [("ran", "run")] [("went", "go"), ("ran", "go")] (by decide) (by decide)
  refine ⟨h.1.1, ?_⟩
  rw [h.2 "ran"]
  decide

/-- C3: each language's stemming wrapper, under the precondition that the
language's stem-map build succeeded with map `m`, returns an absent key
unchanged (identity fallback, never failing) and returns the stored
normalized base form for a present key. -/
theorem stem_wrapper_identity_fallback
    (normalize : String → String) (inflections lexemes lexDe : CsvStream)
    (mEn mFr mDe : StemMap) (w : String)
    (hEn : stems.en normalize inflections lexemes = Except.ok mEn)
    (hFr : stems.fr normalize inflections lexemes = Except.ok mFr)
    (hDe : stems.de normalize lexDe = Except.ok mDe) :
    ((findMap mEn w = none → gazetteer.stem_en mEn w = w) ∧
     ∀ v, findMap mEn w = some v → gazetteer.stem_en mEn w = v) ∧
    ((findMap mFr w = none → gazetteer.stem_fr mFr w = w) ∧
     ∀ v, findMap mFr w = some v → gazetteer.stem_fr mFr w = v) ∧
    ((findMap mDe w = none → gazetteer.stem_de mDe w = w) ∧
     ∀ v, findMap mDe w = some v → gazetteer.stem_de mDe w = v) := by
  refine ⟨⟨?_, ?_⟩, ⟨?_, ?_⟩, ⟨?_, ?_⟩⟩
  · intro h; rw [gazetteer.stem_en, h]
  · intro v h; rw [gazetteer.stem_en, h]
  · intro h; rw [gazetteer.stem_fr, h]
  · intro v h; rw [gazetteer.stem_fr, h]
  · intro h; rw [gazetteer.stem_de, h]
  · intro v h; rw [gazetteer.stem_de, h]

/-- Witness for C3 at a concrete built map: "went" is a key (stemmed to
"go"), "jumping" is absent (returned unchanged). -/
theorem stem_wrapper_identity_fallback_witness :
    gazetteer.stem_en (extendMap [("ran", "run")] [("went", "go"), ("ran", "go")])
      "jumping" = "jumping" ∧
    gazetteer.stem_de [("went", "go"), ("ran", "go")] "went" = "go" := by
  have ha := stem_wrapper_identity_fallback toyNormalize
    [Except.ok ["ran", "run"]] [Except.ok ["go", "ran,went"]]
    [Except.ok ["go", "ran,went"]]
    (extendMap [("ran", "run")] [("went", "go"), ("ran", "go")])
    (extendMap [("ran", "run")] [("went", "go"), ("ran", "go")])
    [("went", "go"), ("ran", "go")] "jumping"
    (by decide) (by decide) (by decide)
  have hb := stem_wrapper_identity_fallback toyNormalize
    [Except.ok ["ran", "run"]] [Except.ok ["go", "ran,went"]]
    [Except.ok ["go", "ran,went"]]
    (extendMap [("ran", "run")] [("went", "go"), ("ran", "go")])
    (extendMap [("ran", "run")] [("went", "go"), ("ran", "go")])
    [("went", "go"), ("ran", "go")] "went"
    (by decide) (by decide) (by decide)
  exact ⟨ha.1.1 (by decide), hb.2.2.2 "go" (by decide)⟩

/-- C6: on a well-formed two-column stream, `parse_lexemes` computes
exactly the map described by the spec: per record the base form is
normalized and every comma-separated key of the second column is
normalized and inserted as key -> normalized-base
(`parse_lexemes_spec`). -/
theorem parse_lexemes_refines_spec (normalize : String → String)
    (records : List (String × String)) :
    stems.parse_lexemes normalize
      (records.map (fun r => Except.ok [r.1, r.2])) =
      Except.ok (parse_lexemes_spec normalize records) := by
  have aux : ∀ (recs : List (String × String)) (acc : StemMap),
      stems.parse_lexemes_from normalize
        (recs.map (fun r => Except.ok [r.1, r.2])) acc =
        Except.ok (recs.foldl
          (fun m r => (splitStr ',' r.2).foldl
            (fun m key => insertMap m (normalize key) (normalize r.1)) m)
          acc) := by
    intro recs
    induction recs with
    | nil => intro acc; rfl
    | cons r t ih =>
      intro acc
      rw [List.map_cons, stems.parse_lexemes_from, decodeRow2_two]
      exact ih _
  exact aux records []

/-- C2: `parse_gazetteer` turns each line whose normalization is
non-empty into exactly the entry obtained by tokenizing the normalized
line, mapping each token through the stemming function and joining with
single spaces, and skips lines whose normalization is empty; membership
in a successfully parsed set is characterized by that per-line entry.  In
particular the source lines "New York", "", "Paris" with the identity
stemming function (and a lower-casing normalizer with a space tokenizer)
yield the two-element set of "new york" and "paris". -/
theorem parse_gazetteer_line_semantics :
    (∀ (normalize : String → String) (tokenize_light : String → List String)
       (stem_fn : String → String) (lines : LineStream) (s : GazSet),
      gazetteer.parse_gazetteer normalize tokenize_light stem_fn lines =
        Except.ok s →
      ∀ x, (x ∈ s ↔ ∃ line, Except.ok line ∈ lines ∧
        (normalize line).isEmpty = false ∧
        x = joinSep " " ((tokenize_light (normalize line)).map stem_fn))) ∧
    gazetteer.parse_gazetteer toyNormalize toyTokenize stems.no_stem
      [Except.ok "New York", Except.ok "", Except.ok "Paris"] =
      Except.ok ["new york", "paris"] := by
  constructor
  · intro normalize tokenize_light stem_fn lines s h x
    exact parse_gazetteer_mem normalize tokenize_light stem_fn lines s h x
  · decide

/-- Witness for C2: the membership characterization applied at the
concrete scenario puts "paris" in the parsed set. -/
theorem parse_gazetteer_line_semantics_witness :
    "paris" ∈ (["new york", "paris"] : GazSet) := by
  apply (parse_gazetteer_line_semantics.1 toyNormalize toyTokenize
    stems.no_stem [Except.ok "New York", Except.ok "", Except.ok "Paris"]
    ["new york", "paris"] parse_gazetteer_line_semantics.2 "paris").mpr
  refine ⟨"Paris", ?_, ?_, ?_⟩
  · simp
  · decide
  · decide

/-- C4: each delimited-record parser returns an `Err` when some row of
the stream does not decode into exactly two string columns (the failure
is the record-shape parse failure, distinguished from an I/O failure),
and accepts every stream whose rows all decode into exactly two
columns. -/
theorem delimited_two_column_acceptance
    (normalize : String → String) (rows : CsvStream) :
    ((∀ r ∈ rows, ∃ a b, r = Except.ok [a, b]) →
      (∃ m, stems.parse_inflections normalize rows = Except.ok m) ∧
      (∃ m, stems.parse_lexemes normalize rows = Except.ok m) ∧
      (∃ m, word_clusters.parse_clusters rows = Except.ok m)) ∧
    ((∀ r ∈ rows, ∃ row, r = Except.ok row) →
     (∃ row, Except.ok row ∈ rows ∧ row.length ≠ 2) →
      stems.parse_inflections normalize rows =
        Except.error (Error.csvError badShapeMsg) ∧
      stems.parse_lexemes normalize rows =
        Except.error (Error.csvError badShapeMsg) ∧
      word_clusters.parse_clusters rows =
        Except.error (Error.csvError badShapeMsg)) := by
  constructor
  · intro hall
    exact ⟨parse_inflections_from_ok normalize rows [] hall,
      parse_lexemes_from_ok normalize rows [] hall,
      parse_clusters_from_ok rows [] hall⟩
  · intro hall hbad
    exact ⟨parse_inflections_from_bad normalize rows [] hall hbad,
      parse_lexemes_from_bad normalize rows [] hall hbad,
      parse_clusters_from_bad rows [] hall hbad⟩

/-- Witness for C4: a two-column stream is accepted, a one-column row is
rejected with the record-shape parse failure. -/
theorem delimited_two_column_acceptance_witness :
    (∃ m, word_clusters.parse_clusters [Except.ok ["dog", "001"]] =
      Except.ok m) ∧
    stems.parse_inflections toyNormalize [Except.ok ["solo"]] =
      Except.error (Error.csvError badShapeMsg) := by
  constructor
  · refine ((delimited_two_column_acceptance toyNormalize
      [Except.ok ["dog", "001"]]).1 ?_).2.2
    intro r hr
    simp at hr
    exact ⟨"dog", "001", hr⟩
  · refine ((delimited_two_column_acceptance toyNormalize
      [Except.ok ["solo"]]).2 ?_ ?_).1
    · intro r hr
      simp at hr
      exact ⟨["solo"], hr⟩
    · exact ⟨["solo"], by simp, by decide⟩

/-- C5: `parse_clusters` inserts each record verbatim: every binding of a
successfully parsed map is literally a two-column record of the stream
(no normalization of either side); in particular the stream with records
(dog, 001) and (cat, 002) parses to exactly those bindings, keys
unmodified. -/
theorem parse_clusters_verbatim
    (rows : CsvStream) (m : StemMap)
    (h : word_clusters.parse_clusters rows = Except.ok m) :
    (∀ x ∈ m, Except.ok [x.1, x.2] ∈ rows) ∧
    (word_clusters.parse_clusters
      [Except.ok ["dog", "001"], Except.ok ["cat", "002"]] =
      Except.ok [("cat", "002"), ("dog", "001")] ∧
     findMap [("cat", "002"), ("dog", "001")] "dog" = some "001" ∧
     findMap [("cat", "002"), ("dog", "001")] "cat" = some "002") := by
  constructor
  · intro x hx
    rcases parse_clusters_from_entries rows [] m h x hx with hacc | hmem
    · exact absurd hacc (List.not_mem_nil x)
    · exact hmem
  · exact ⟨by decide, by decide, by decide⟩

/-- Witness for C5: applied to the concrete Brown-cluster stream, every
binding (here ("dog","001")) is a verbatim record of the stream. -/
theorem parse_clusters_verbatim_witness :
    Except.ok ["dog", "001"] ∈
      ([Except.ok ["dog", "001"], Except.ok ["cat", "002"]] : CsvStream) := by
  have h := parse_clusters_verbatim
    [Except.ok ["dog", "001"], Except.ok ["cat", "002"]]
    [("cat", "002"), ("dog", "001")] (by decide)
  exact h.1 ("dog", "001") (by decide)

/-- C7: for any gazetteer source, every entry E of the unstemmed set
(built with `no_stem`) arises from some line's token list, and the
stemmed set built from the same source contains the space-join of the
per-token stems of those tokens; when the external tokenizer round-trips
on the canonical entries of the source's lines (re-tokenizing a
space-joined token list returns the same tokens), that entry is exactly
the space-join of the per-token stems of E's own tokens. -/
theorem stemmed_gazetteer_consistency
    (normalize : String → String) (tokenize_light : String → List String)
    (stem_fn : String → String) (lines : LineStream) (s t : GazSet)
    (hu : gazetteer.parse_gazetteer normalize tokenize_light stems.no_stem
      lines = Except.ok s)
    (hs : gazetteer.parse_gazetteer normalize tokenize_light stem_fn
      lines = Except.ok t) :
    (∀ E ∈ s, ∃ toks, E = joinSep " " toks ∧
      joinSep " " (toks.map stem_fn) ∈ t) ∧
    ((∀ line, Except.ok line ∈ lines →
        tokenize_light (joinSep " " (tokenize_light (normalize line))) =
          tokenize_light (normalize line)) →
      ∀ E ∈ s, joinSep " " ((tokenize_light E).map stem_fn) ∈ t) := by
  have hmapid : ∀ l : List String, l.map stems.no_stem = l := fun l =>
    List.map_id l
  constructor
  · intro E hE
    obtain ⟨line, hline, hne, hEeq⟩ :=
      (parse_gazetteer_mem normalize tokenize_light stems.no_stem lines s
        hu E).mp hE
    refine ⟨tokenize_light (normalize line), ?_, ?_⟩
    · rw [hEeq, hmapid]
    · exact (parse_gazetteer_mem normalize tokenize_light stem_fn lines t
        hs _).mpr ⟨line, hline, hne, rfl⟩
  · intro hstable E hE
    obtain ⟨line, hline, hne, hEeq⟩ :=
      (parse_gazetteer_mem normalize tokenize_light stems.no_stem lines s
        hu E).mp hE
    rw [hEeq, hmapid, hstable line hline]
    exact (parse_gazetteer_mem normalize tokenize_light stem_fn lines t
      hs _).mpr ⟨line, hline, hne, rfl⟩

/-- Witness for C7 at a concrete source: the unstemmed entry "new york"
re-tokenizes to its own tokens, each token is stemmed through the built
map sending "york" to "y", and "new y" is in the stemmed set. -/
theorem stemmed_gazetteer_consistency_witness :
    joinSep " "
      ((toyTokenize "new york").map (gazetteer.stem_en [("york", "y")])) ∈
      (["new y"] : GazSet) := by
  have h := stemmed_gazetteer_consistency toyNormalize toyTokenize
    (gazetteer.stem_en [("york", "y")]) [Except.ok "New York"]
    ["new york"] ["new y"] (by decide) (by decide)
  apply h.2
  · intro line hline
    have : line = "New York" := by
      have := List.mem_cons.mp hline
      simp at this
      exact this
    rw [this]
    decide
  · decide

/-- C10: on a successfully parsed gazetteer, every line whose
normalization is non-empty contributes its joined (possibly empty) entry
even when the tokenizer returns no tokens; hence a line with non-empty
normalization but an empty token sequence puts the empty string in the
set, so the "entries are non-empty" invariant needs the tokenizer to
return at least one token on every non-empty input. -/
theorem gazetteer_empty_entry_edge
    (normalize : String → String) (tokenize_light : String → List String)
    (stem_fn : String → String) (lines : LineStream) (s : GazSet)
    (h : gazetteer.parse_gazetteer normalize tokenize_light stem_fn lines =
      Except.ok s) :
    (∀ line, Except.ok line ∈ lines → (normalize line).isEmpty = false →
      joinSep " " ((tokenize_light (normalize line)).map stem_fn) ∈ s) ∧
    ((∃ line, Except.ok line ∈ lines ∧ (normalize line).isEmpty = false ∧
      tokenize_light (normalize line) = []) → "" ∈ s) := by
  constructor
  · intro line hl hne
    exact (parse_gazetteer_mem normalize tokenize_light stem_fn lines s
      h _).mpr ⟨line, hl, hne, rfl⟩
  · rintro ⟨line, hl, hne, htok⟩
    refine (parse_gazetteer_mem normalize tokenize_light stem_fn lines s
      h "").mpr ⟨line, hl, hne, ?_⟩
    rw [htok]
    rfl

/-- Witness for C10: with a tokenizer returning no tokens on the
non-empty line "x", the parsed set contains the empty string. -/
theorem gazetteer_empty_entry_edge_witness :
    "" ∈ ([""] : GazSet) := by
  have h := gazetteer_empty_entry_edge toyNormalize (fun _ => [])
    stems.no_stem [Except.ok "x"] [""] (by decide)
  exact h.2 ⟨"x", by simp, by decide, rfl⟩

/-- Counterexample to C8 as stated: with a malformed inflection stream
the English stem-map build fails, and a stemmed gazetteer accessor that
must stem the token "a" panics (`lazy_static` holds
`stems::en().unwrap()`); the outcome is not an `Err` return. -/
theorem stemmed_accessor_panic_counterexample :
    stemmed_gazetteer_accessor toyNormalize toyTokenize
      (stems.en toyNormalize [Except.ok ["solo"]] []) [Except.ok "a"] =
      Outcome.panicked ∧
    Outcome.isFailure (stemmed_gazetteer_accessor toyNormalize toyTokenize
      (stems.en toyNormalize [Except.ok ["solo"]] []) [Except.ok "a"]) =
      false := by
  decide

/-- C8 amended: I/O and parse failures of the requested structure's own
byte stream are surfaced as an `Err` of the unified error type wrapping
the originating cause (stems accessors propagate either parse failure,
the cluster and gazetteer accessors propagate a stream failure, and a
stemmed accessor with a successfully built stem map propagates a line
failure); but a failure to build the per-language stem map used by a
stemmed gazetteer accessor is not surfaced as an `Err`: as soon as some
token must be stemmed, the `lazy_static` `unwrap` panics. -/
theorem accessor_unified_error_surfacing
    (normalize : String → String) (tokenize_light : String → List String)
    (stem_fn : String → String) (inflections lexemes rows : CsvStream)
    (lines : LineStream) (e eb : Error) (line : String) (m1 : StemMap) :
    (stems.parse_inflections normalize inflections = Except.error e →
      stems.en normalize inflections lexemes = Except.error e) ∧
    (stems.parse_inflections normalize inflections = Except.ok m1 →
      stems.parse_lexemes normalize lexemes = Except.error e →
      stems.en normalize inflections lexemes = Except.error e) ∧
    (word_clusters.brown_clusters (Except.error e :: rows) =
      Except.error e) ∧
    (gazetteer.parse_gazetteer normalize tokenize_light stem_fn
      (Except.error e :: lines) = Except.error e) ∧
    (∀ m, stemmed_gazetteer_accessor normalize tokenize_light (Except.ok m)
      (Except.error e :: lines) = Outcome.failed e) ∧
    ((normalize line).isEmpty = false →
      ∀ tok toks, tokenize_light (normalize line) = tok :: toks →
      stemmed_gazetteer_accessor normalize tokenize_light (Except.error eb)
        (Except.ok line :: lines) = Outcome.panicked) := by
  refine ⟨?_, ?_, ?_, ?_, ?_, ?_⟩
  · intro h; rw [stems.en, h]
  · intro h1 h2; rw [stems.en, h1, h2]
  · rfl
  · rfl
  · intro m; rfl
  · intro hne tok toks htok
    rw [stemmed_gazetteer_accessor, run_stemmed_gazetteer]
    simp only [hne, Bool.false_eq_true, if_false, htok]

/-- Witness for the amended C8: a stream failure surfaces from
`stems::en` as the same `Err`, while a failed stem-map build under a
stemmed accessor panics. -/
theorem accessor_unified_error_surfacing_witness :
    stems.en toyNormalize [Except.error (Error.ioError "broken")] [] =
      Except.error (Error.ioError "broken") ∧
    stemmed_gazetteer_accessor toyNormalize toyTokenize
      (Except.error (Error.csvError badShapeMsg)) [Except.ok "a"] =
      Outcome.panicked := by
  have h := accessor_unified_error_surfacing toyNormalize toyTokenize
    stems.no_stem [Except.error (Error.ioError "broken")] [] [] []
    (Error.ioError "broken") (Error.csvError badShapeMsg) "a" []
  exact ⟨h.1 (by decide), h.2.2.2.2.2 (by decide) "a" [] (by decide)⟩

/-- Counterexample to C9 as stated: the top-level accessor `stems::en`
re-parses its two resource streams on every call; after a first call
(2 parses) a second call performs 2 more parses instead of returning the
already-built structure. -/
theorem stems_accessor_reparses_counterexample :
    (call_stems_en_counting toyNormalize [Except.ok ["ran", "run"]] []
      (call_stems_en_counting toyNormalize
        [Except.ok ["ran", "run"]] [] 0).1).1 = 4 ∧
    (call_stems_en_counting toyNormalize [Except.ok ["ran", "run"]] [] 0).1
      = 2 := by
  decide

/-- C9 amended: the top-level accessors re-parse their resource streams
on every call (each `stems::en()` call adds two parses); only the
per-language stem maps used inside the stemming wrappers are cached: the
first wrapper call builds and stores the map, and a subsequent call with
a filled `lazy_static` slot performs no parse and reuses the stored
map. -/
theorem caching_only_in_stem_wrappers
    (normalize : String → String) (inflections lexemes : CsvStream)
    (w1 w2 : String) (n : Nat) (m : StemMap)
    (hbuild : stems.en normalize inflections lexemes = Except.ok m) :
    (call_stems_en_counting normalize inflections lexemes n).1 = n + 2 ∧
    call_stem_en_cached normalize inflections lexemes ⟨none, n⟩ w1 =
      (⟨some m, n + 2⟩, some (gazetteer.stem_en m w1)) ∧
    call_stem_en_cached normalize inflections lexemes ⟨some m, n + 2⟩ w2 =
      (⟨some m, n + 2⟩, some (gazetteer.stem_en m w2)) := by
  cases hi : stems.parse_inflections normalize inflections with
  | error e => rw [stems.en, hi] at hbuild; cases hbuild
  | ok mi =>
    cases hl : stems.parse_lexemes normalize lexemes with
    | error e => rw [stems.en, hi, hl] at hbuild; cases hbuild
    | ok ml =>
      rw [stems.en, hi, hl] at hbuild
      have hm : m = extendMap mi ml := (Except.ok.inj hbuild).symm
      subst hm
      refine ⟨?_, ?_, ?_⟩
      · simp only [call_stems_en_counting, hi, hl]
      · simp only [call_stem_en_cached, call_stems_en_counting, hi, hl]
      · simp only [call_stem_en_cached]

/-- Witness for the amended C9: after the English stem map is cached, a
wrapper call returns the stored stem of "ran" with no further parse. -/
theorem caching_only_in_stem_wrappers_witness :
    call_stem_en_cached toyNormalize [Except.ok ["ran", "run"]] []
      ⟨some (extendMap [("ran", "run")] []), 2⟩ "ran" =
      (⟨some (extendMap [("ran", "run")] []), 2⟩,
        some (gazetteer.stem_en (extendMap [("ran", "run")] []) "ran")) := by
  have h := caching_only_in_stem_wrappers toyNormalize
    [Except.ok ["ran", "run"]] [] "x" "ran" 0
    (extendMap [("ran", "run")] []) (by decide)
  exact h.2.2
